import Mathlib

/-!
Shallow embedding of the rdmeter metric core (src/metrics.cpp, src/yuv_reader.hpp)
and proofs of the specification claims about it.

Doubles are modelled as elements of a linear ordered field; the transcendental
library functions std::exp, std::pow, std::sqrt and std::log10 are abstracted as
function parameters, instantiated with the Mathlib real functions in theorems and
with concrete rational functions in executable witnesses.  8-bit samples are
natural numbers; the uint8_t casts of the source appear as explicit truncations.
-/

set_option linter.unusedVariables false

namespace rdmeter

/-- Error kinds of the metric core: invalid metric input (std::invalid_argument in
metrics.cpp) and decode failure (std::runtime_error in yuv_reader.hpp). -/
inductive MetricError where
  | invalidInput : String → MetricError
  | decodeError : String → MetricError
deriving DecidableEq, Repr

instance {ε α : Type} [DecidableEq ε] [DecidableEq α] : DecidableEq (Except ε α) := fun a b =>
  match a, b with
  | .ok x, .ok y =>
    if h : x = y then .isTrue (by rw [h]) else .isFalse (by intro hc; cases hc; exact h rfl)
  | .ok _, .error _ => .isFalse (by intro hc; cases hc)
  | .error _, .ok _ => .isFalse (by intro hc; cases hc)
  | .error x, .error y =>
    if h : x = y then .isTrue (by rw [h]) else .isFalse (by intro hc; cases hc; exact h rfl)

section Embedding

variable {F : Type} [LinearOrderedField F]

/-- Mean squared error of psnr_y (metrics.cpp lines 12-20): sum of squared sample
differences, each sample promoted to the field before differencing, divided by the
pixel count. -/
def mseVal (ref_y dist_y : List ℕ) : F :=
  (∑ i in Finset.range ref_y.length,
      (((ref_y.getD i 0 : ℕ) : F) - ((dist_y.getD i 0 : ℕ) : F)) *
        (((ref_y.getD i 0 : ℕ) : F) - ((dist_y.getD i 0 : ℕ) : F))) /
    (ref_y.length : F)

/-- PSNR on luma planes (metrics.cpp psnr_y).  sqrtF and log10F abstract std::sqrt and
std::log10; the theorems instantiate them with Real.sqrt and Real.logb 10. -/
def psnr_y (sqrtF log10F : F → F) (ref_y dist_y : List ℕ) (width height : ℕ) :
    Except MetricError F :=
  if ref_y.length ≠ dist_y.length ∨ ref_y.length ≠ width * height then
    .error (.invalidInput "Frame sizes do not match or invalid dimensions")
  else if mseVal (F := F) ref_y dist_y = 0 then
    .ok 100
  else
    .ok (20 * log10F (255 / sqrtF (mseVal ref_y dist_y)))

/-- Raw Gaussian weights gexp(-(i-half)^2 / (2*sigma^2)) for i in [0,size), with
half = size/2 by integer division (metrics.cpp lines 36-42); gexp abstracts std::exp. -/
def gaussianRaw (gexp : F → F) (size : ℕ) (sigma : F) : List F :=
  let half : ℕ := size / 2
  (List.range size).map (fun (i : ℕ) =>
    gexp ((-(((i : F) - (half : F)) * ((i : F) - (half : F)))) / (2 * sigma * sigma)))

/-- 1D Gaussian kernel (metrics.cpp generate_gaussian_kernel): the raw weights, each
divided by their sum. -/
def generate_gaussian_kernel (gexp : F → F) (size : ℕ) (sigma : F) : List F :=
  (gaussianRaw gexp size sigma).map (fun k => k / (gaussianRaw gexp size sigma).sum)

/-- Sequential border corrections of apply_gaussian_filter (metrics.cpp lines 63-66 and
79-82): a negative raw index is negated, and a result at least dim is then mirrored to
2*dim - j - 1. -/
def reflect (dim i : ℤ) : ℤ :=
  let j := if i < 0 then -i else i
  if dim ≤ j then 2 * dim - j - 1 else j

/-- Reads a flat buffer at a possibly out-of-range signed index.  An out-of-range read is
undefined behavior in the C++ source; it is modelled as the default value, and the
claims about in-range behavior carry explicit in-bounds hypotheses. -/
def vget {α : Type} (d : α) (v : List α) (i : ℤ) : α :=
  if i < 0 then d else v.getD i.toNat d

/-- One sample of the horizontal pass (metrics.cpp lines 59-72): the kernel applied
along the row of the flat position p, with reflect at the row borders. -/
def hpassPix (image : List ℕ) (width : ℕ) (kernel : List F) (p : ℕ) : F :=
  let half : ℕ := kernel.length / 2
  let y := p / width
  let x := p % width
  ∑ k in Finset.range kernel.length,
    ((vget 0 image ((y : ℤ) * (width : ℤ) + reflect width ((x : ℤ) + (k : ℤ) - (half : ℤ))) : ℕ) : F) *
      kernel.getD k 0

/-- The real-valued intermediate plane temp of apply_gaussian_filter. -/
def filterTemp (image : List ℕ) (width height : ℕ) (kernel : List F) : List F :=
  (List.range (height * width)).map (hpassPix image width kernel)

/-- One sample of the vertical pass (metrics.cpp lines 75-88): the kernel applied along
the column of the flat position p of the intermediate plane, with reflect at the column
borders. -/
def vpassPix (temp : List F) (width height : ℕ) (kernel : List F) (p : ℕ) : F :=
  let half : ℕ := kernel.length / 2
  let y := p / width
  let x := p % width
  ∑ k in Finset.range kernel.length,
    vget 0 temp (reflect height ((y : ℤ) + (k : ℤ) - (half : ℤ)) * (width : ℤ) + (x : ℤ)) *
      kernel.getD k 0

/-- Separable filter (metrics.cpp apply_gaussian_filter): a horizontal pass over the
8-bit input producing a real-valued intermediate, then a vertical pass over that
intermediate, both using reflect at the borders; output dimensions are unchanged and
the output is never clamped back to 8 bits. -/
def apply_gaussian_filter (image : List ℕ) (width height : ℕ) (kernel : List F) :
    List F :=
  (List.range (height * width)).map
    (vpassPix (filterTemp image width height kernel) width height kernel)

/-- Decides whether every index sampled by one filter pass along an axis of extent dim,
after the two reflect corrections, lies inside [0, dim). -/
def filterIndicesInBounds (dim ksize : ℕ) : Bool :=
  (List.range dim).all fun (x : ℕ) =>
    (List.range ksize).all fun (k : ℕ) =>
      decide (0 ≤ reflect dim ((x : ℤ) + (k : ℤ) - (ksize / 2 : ℕ)) ∧
        reflect dim ((x : ℤ) + (k : ℤ) - (ksize / 2 : ℕ)) < dim)

/-- Whole-plane mean over n = width*height samples (metrics.cpp lines 186-192). -/
def globalMean (p : List ℕ) (n : ℕ) : F :=
  (∑ i in Finset.range n, ((p.getD i 0 : ℕ) : F)) / (n : F)

/-- Whole-plane covariance with the sample divisor n - 1 (metrics.cpp lines 195-205). -/
def globalCovar (p q : List ℕ) (n : ℕ) : F :=
  (∑ i in Finset.range n,
      (((p.getD i 0 : ℕ) : F) - globalMean p n) * (((q.getD i 0 : ℕ) : F) - globalMean q n)) /
    ((n : F) - 1)

/-- Whole-plane variance: the covariance loop with both factors from the same plane. -/
def globalVar (p : List ℕ) (n : ℕ) : F := globalCovar p p n

/-- Stabilizer C1 = (K1*L)*(K1*L) with K1 = 0.01, L = 255 (metrics.cpp lines 99-102). -/
def ssimC1 : F := (1 / 100 * 255) * (1 / 100 * 255)

/-- Stabilizer C2 = (K2*L)*(K2*L) with K2 = 0.03, L = 255 (metrics.cpp lines 101-103). -/
def ssimC2 : F := (3 / 100 * 255) * (3 / 100 * 255)

/-- Numerator (2*mean1*mean2 + C1) * (2*covar + C2) of the global-statistics SSIM
formula (metrics.cpp line 208). -/
def ssimNumerator (ref_y dist_y : List ℕ) (n : ℕ) : F :=
  (2 * globalMean ref_y n * globalMean dist_y n + ssimC1) *
    (2 * globalCovar ref_y dist_y n + ssimC2)

/-- Denominator (mean1^2 + mean2^2 + C1) * (var1 + var2 + C2) of the global-statistics
SSIM formula (metrics.cpp line 209). -/
def ssimDenominator (ref_y dist_y : List ℕ) (n : ℕ) : F :=
  (globalMean ref_y n * globalMean ref_y n + globalMean dist_y n * globalMean dist_y n +
      ssimC1) *
    (globalVar ref_y n + globalVar dist_y n + ssimC2)

/-- Value computed by the final branch of ssim_y (metrics.cpp lines 211-215): the
sentinel 1 on a zero denominator, otherwise the quotient. -/
def ssimValue (ref_y dist_y : List ℕ) (n : ℕ) : F :=
  if ssimDenominator (F := F) ref_y dist_y n = 0 then 1
  else ssimNumerator ref_y dist_y n / ssimDenominator ref_y dist_y n

/-- Truncating conversion static_cast<uint8_t>(std::min(255.0, a*b/255.0)) used on the
squared and product planes (metrics.cpp lines 166-170). -/
def clampProd (a b : ℕ) : ℕ := min 255 (a * b / 255)

/-- Single-scale SSIM (metrics.cpp ssim_y).  The local Gaussian statistics are built
exactly as in the source and then, exactly as in the source, never used: the returned
value comes from the global whole-plane statistics alone. -/
def ssim_y (gexp : F → F) (ref_y dist_y : List ℕ) (width height : ℕ) :
    Except MetricError F :=
  if ref_y.length ≠ dist_y.length ∨ ref_y.length ≠ width * height then
    .error (.invalidInput "Frame sizes do not match or invalid dimensions")
  else
    let kernel := generate_gaussian_kernel gexp 11 (3 / 2)
    let mu1 := apply_gaussian_filter ref_y width height kernel
    let mu2 := apply_gaussian_filter dist_y width height kernel
    let mu1_sq := mu1.map (fun v => v * v)
    let mu2_sq := mu2.map (fun v => v * v)
    let mu1_mu2 := List.zipWith (fun a b => a * b) mu1 mu2
    let ref_sq := ref_y
    let dist_sq := dist_y
    let ref_dist := ref_y
    let ref_double := ref_y.map (fun v => ((v : ℕ) : F))
    let dist_double := dist_y.map (fun v => ((v : ℕ) : F))
    let ref_sq_d := ref_y.map (fun v => ((v : ℕ) : F) * ((v : ℕ) : F))
    let dist_sq_d := dist_y.map (fun v => ((v : ℕ) : F) * ((v : ℕ) : F))
    let ref_dist_d := List.zipWith (fun a b => ((a : ℕ) : F) * ((b : ℕ) : F)) ref_y dist_y
    let ref_y_squared := ref_y.map (fun v => clampProd v v)
    let dist_y_squared := dist_y.map (fun v => clampProd v v)
    let ref_dist_prod := List.zipWith (fun a b => clampProd a b) ref_y dist_y
    let sigma1_sq_raw := apply_gaussian_filter ref_y_squared width height kernel
    let sigma2_sq_raw := apply_gaussian_filter dist_y_squared width height kernel
    let sigma12_raw := apply_gaussian_filter ref_dist_prod width height kernel
    .ok (ssimValue ref_y dist_y (width * height))

/-- One output sample of the 2x2 average pooling (metrics.cpp lines 228-241): the sum of
the up-to-four in-range samples of the 2x2 block at (2x, 2y), divided by 4 with
truncation, then cast to uint8_t. -/
def downsamplePix (image : List ℕ) (width height x y : ℕ) : ℕ :=
  let src_x := x * 2
  let src_y := y * 2
  let sum :=
    image.getD (src_y * width + src_x) 0 +
      (if src_x + 1 < width then image.getD (src_y * width + (src_x + 1)) 0 else 0) +
      (if src_y + 1 < height then image.getD ((src_y + 1) * width + src_x) 0 else 0) +
      (if src_x + 1 < width ∧ src_y + 1 < height then
        image.getD ((src_y + 1) * width + (src_x + 1)) 0
      else 0)
  sum / 4 % 256

/-- Contents of the downsampled plane, before the size guard of downsample_2x2. -/
def downsampleCore (image : List ℕ) (width height : ℕ) : List ℕ :=
  (List.range (height / 2 * (width / 2))).map (fun p =>
    downsamplePix image width height (p % (width / 2)) (p / (width / 2)))

/-- 2x2 average-pooling downsample (metrics.cpp downsample_2x2); returns the plane
together with the new width and height, or fails when either would be 0. -/
def downsample_2x2 (image : List ℕ) (width height : ℕ) :
    Except MetricError (List ℕ × ℕ × ℕ) :=
  if width / 2 = 0 ∨ height / 2 = 0 then
    .error (.invalidInput "Image too small for downsampling")
  else
    .ok (downsampleCore image width height, width / 2, height / 2)

/-- Pyramid level s of a plane: s-fold 2x2 downsampling together with the dimensions of
that level. -/
def levelPlane (image : List ℕ) (width height : ℕ) : ℕ → List ℕ × ℕ × ℕ
  | 0 => (image, width, height)
  | s + 1 =>
    let prev := levelPlane image width height s
    (downsampleCore prev.1 prev.2.1 prev.2.2, prev.2.1 / 2, prev.2.2 / 2)

/-- Pyramid construction of msssim_y (metrics.cpp lines 260-278): level 0 is the original
pair, and each further level downsamples the previous level of each plane. -/
def pyramidLevels :
    ℕ → List ℕ → List ℕ → ℕ → ℕ → Except MetricError (List (List ℕ × List ℕ × ℕ × ℕ))
  | 0, r, d, w, h => .ok [(r, d, w, h)]
  | n + 1, r, d, w, h => do
    let rdown ← downsample_2x2 r w h
    let ddown ← downsample_2x2 d w h
    let rest ← pyramidLevels n rdown.1 ddown.1 rdown.2.1 rdown.2.2
    .ok ((r, d, w, h) :: rest)

/-- MS-SSIM per-scale weights of Wang et al. (metrics.cpp line 253). -/
def msssimWeights : List F :=
  [448 / 10000, 2856 / 10000, 3001 / 10000, 2363 / 10000, 1333 / 10000]

/-- Combination loop of msssim_y (metrics.cpp lines 282-292): short-circuits to 0 on a
non-positive per-scale value, otherwise multiplies powf value weight into the
accumulator. -/
def msssimFold (powf : F → F → F) : List (F × F) → F → F
  | [], acc => acc
  | (v, wt) :: rest, acc => if v ≤ 0 then 0 else msssimFold powf rest (acc * powf v wt)

/-- Multi-scale SSIM (metrics.cpp msssim_y); powf abstracts std::pow. -/
def msssim_y (gexp : F → F) (powf : F → F → F) (ref_y dist_y : List ℕ)
    (width height : ℕ) : Except MetricError F :=
  if ref_y.length ≠ dist_y.length ∨ ref_y.length ≠ width * height then
    .error (.invalidInput "Frame sizes do not match or invalid dimensions")
  else if width < 32 ∨ height < 32 then
    .error (.invalidInput "Image too small for MS-SSIM calculation with 5 scales")
  else do
    let pyr ← pyramidLevels 4 ref_y dist_y width height
    let ssims ← pyr.mapM (fun lvl => ssim_y gexp lvl.1 lvl.2.1 lvl.2.2.1 lvl.2.2.2)
    .ok (msssimFold powf (ssims.zip msssimWeights) 1)

end Embedding

/-- YUV 4:2:0 frame (yuv_reader.hpp): full-resolution luma plane and quarter-resolution
chroma planes. -/
structure YUVFrame where
  y : List ℕ
  u : List ℕ
  v : List ℕ
  width : ℕ
  height : ℕ
deriving DecidableEq, Repr

/-- Frame decoding (yuv_reader.hpp read_yuv420p_frame): reads width*height luma bytes,
then (width/2)*(height/2) bytes for each chroma plane, in the order Y, U, V, failing
with a decode error on any short read; on success returns the frame and the remaining
stream. -/
def read_yuv420p_frame (stream : List ℕ) (width height : ℕ) :
    Except MetricError (YUVFrame × List ℕ) :=
  let ySize := width * height
  let cSize := width / 2 * (height / 2)
  if ySize ≤ stream.length then
    let s1 := stream.drop ySize
    if cSize ≤ s1.length then
      let s2 := s1.drop cSize
      if cSize ≤ s2.length then
        .ok (⟨stream.take ySize, s1.take cSize, s2.take cSize, width, height⟩, s2.drop cSize)
      else .error (.decodeError "Failed to read V plane from YUV file")
    else .error (.decodeError "Failed to read U plane from YUV file")
  else .error (.decodeError "Failed to read Y plane from YUV file")

/-! ## Helper lemmas -/

section Lemmas

variable {F : Type} [LinearOrderedField F]

theorem getD_range_map {α : Type} (f : ℕ → α) (n i : ℕ) (d : α) (hi : i < n) :
    (((List.range n).map f).getD i d) = f i := by
  rw [List.getD_eq_getElem?_getD, List.getElem?_map, List.getElem?_range hi]
  rfl

theorem flat_lt {y x h w : ℕ} (hy : y < h) (hx : x < w) : y * w + x < h * w :=
  calc y * w + x < y * w + w := Nat.add_lt_add_left hx _
  _ = (y + 1) * w := (Nat.succ_mul y w).symm
  _ ≤ h * w := Nat.mul_le_mul_right w hy

theorem flat_div {y x w : ℕ} (hx : x < w) : (y * w + x) / w = y := by
  rw [mul_comm, Nat.mul_add_div (Nat.lt_of_le_of_lt (Nat.zero_le x) hx), Nat.div_eq_of_lt hx,
    Nat.add_zero]

theorem flat_mod {y x w : ℕ} (hx : x < w) : (y * w + x) % w = x := by
  rw [mul_comm, Nat.mul_add_mod, Nat.mod_eq_of_lt hx]

theorem filterIndicesInBounds_iff (dim ksize : ℕ) :
    filterIndicesInBounds dim ksize = true ↔
      ∀ x < dim, ∀ k < ksize,
        0 ≤ reflect dim ((x : ℤ) + (k : ℤ) - (ksize / 2 : ℕ)) ∧
          reflect dim ((x : ℤ) + (k : ℤ) - (ksize / 2 : ℕ)) < dim := by
  simp [filterIndicesInBounds, List.all_eq_true, List.mem_range]

theorem reflect_of_neg {dim i : ℤ} (h1 : i < 0) (h2 : -i < dim) : reflect dim i = -i := by
  simp only [reflect, if_pos h1, if_neg (not_le.mpr h2)]

theorem reflect_of_ge {dim i : ℤ} (h1 : 0 ≤ i) (h2 : dim ≤ i) : reflect dim i = 2 * dim - i - 1 := by
  simp only [reflect, if_neg (not_lt.mpr h1), if_pos h2]

theorem reflect_of_mem {dim i : ℤ} (h1 : 0 ≤ i) (h2 : i < dim) : reflect dim i = i := by
  simp only [reflect, if_neg (not_lt.mpr h1), if_neg (not_le.mpr h2)]

theorem reflect_inBounds_of_five_le {d : ℕ} (hd : 5 ≤ d) {x k : ℕ} (hx : x < d) (hk : k < 11) :
    0 ≤ reflect d ((x : ℤ) + (k : ℤ) - (5 : ℕ)) ∧ reflect d ((x : ℤ) + (k : ℤ) - (5 : ℕ)) < d := by
  have hd5 : (5 : ℤ) ≤ (d : ℤ) := by exact_mod_cast hd
  have hx5 : (x : ℤ) < (d : ℤ) := by exact_mod_cast hx
  have hk5 : (k : ℤ) < 11 := by exact_mod_cast hk
  have hx0 : (0 : ℤ) ≤ (x : ℤ) := Int.natCast_nonneg x
  have hk0 : (0 : ℤ) ≤ (k : ℤ) := Int.natCast_nonneg k
  unfold reflect
  dsimp only
  split_ifs <;> omega

theorem globalVar_nonneg (p : List ℕ) (n : ℕ) : 0 ≤ globalVar (F := F) p n := by
  cases n with
  | zero => simp [globalVar, globalCovar]
  | succ m =>
    apply div_nonneg
    · exact Finset.sum_nonneg fun i _ => mul_self_nonneg _
    · have : (0 : F) ≤ (m : F) := Nat.cast_nonneg m
      push_cast
      linarith

theorem ssimC1_pos : 0 < (ssimC1 : F) := by
  rw [ssimC1]; norm_num

theorem ssimC2_pos : 0 < (ssimC2 : F) := by
  rw [ssimC2]; norm_num

theorem ssimDenominator_pos (ref_y dist_y : List ℕ) (n : ℕ) :
    0 < ssimDenominator (F := F) ref_y dist_y n := by
  unfold ssimDenominator
  apply mul_pos
  · have h1 := mul_self_nonneg (globalMean (F := F) ref_y n)
    have h2 := mul_self_nonneg (globalMean (F := F) dist_y n)
    have h3 : (0 : F) < ssimC1 := ssimC1_pos
    linarith
  · have h1 := globalVar_nonneg (F := F) ref_y n
    have h2 := globalVar_nonneg (F := F) dist_y n
    have h3 : (0 : F) < ssimC2 := ssimC2_pos
    linarith

theorem ssimValue_eq_div (ref_y dist_y : List ℕ) (n : ℕ) :
    ssimValue (F := F) ref_y dist_y n =
      ssimNumerator ref_y dist_y n / ssimDenominator ref_y dist_y n := by
  rw [ssimValue, if_neg (ne_of_gt (ssimDenominator_pos ref_y dist_y n))]

theorem ssimValue_self (p : List ℕ) (n : ℕ) : ssimValue (F := F) p p n = 1 := by
  rw [ssimValue_eq_div]
  have hnum : ssimNumerator (F := F) p p n = ssimDenominator p p n := by
    unfold ssimNumerator ssimDenominator globalVar
    ring
  rw [hnum, div_self (ne_of_gt (ssimDenominator_pos p p n))]

theorem ssim_y_eq (gexp : F → F) (ref_y dist_y : List ℕ) (width height : ℕ)
    (h1 : ref_y.length = dist_y.length) (h2 : ref_y.length = width * height) :
    ssim_y gexp ref_y dist_y width height =
      .ok (ssimValue ref_y dist_y (width * height)) := by
  rw [ssim_y, if_neg]
  push_neg
  exact ⟨h1, h2⟩

theorem ssim_y_self (gexp : F → F) (p : List ℕ) (width height : ℕ)
    (h2 : p.length = width * height) :
    ssim_y gexp p p width height = .ok 1 := by
  rw [ssim_y_eq gexp p p width height rfl h2, ssimValue_self]

theorem downsampleCore_length (image : List ℕ) (width height : ℕ) :
    (downsampleCore image width height).length = height / 2 * (width / 2) := by
  simp [downsampleCore]

theorem levelPlane_dims (image : List ℕ) (width height : ℕ) (s : ℕ) :
    (levelPlane image width height s).2 = (width / 2 ^ s, height / 2 ^ s) := by
  induction s with
  | zero => simp [levelPlane]
  | succ t ih =>
    simp only [levelPlane, ih]
    rw [Nat.div_div_eq_div_mul, Nat.div_div_eq_div_mul, ← pow_succ]

theorem levelPlane_shift (image : List ℕ) (width height s : ℕ) :
    levelPlane image width height (s + 1) =
      levelPlane (downsampleCore image width height) (width / 2) (height / 2) s := by
  induction s with
  | zero => rfl
  | succ t ih =>
    have hstep : levelPlane image width height (t + 1 + 1) =
        (downsampleCore (levelPlane image width height (t + 1)).1
            (levelPlane image width height (t + 1)).2.1
            (levelPlane image width height (t + 1)).2.2,
          (levelPlane image width height (t + 1)).2.1 / 2,
          (levelPlane image width height (t + 1)).2.2 / 2) := rfl
    rw [hstep, ih]
    rfl

theorem levelPlane_length (image : List ℕ) (width height : ℕ)
    (hlen : image.length = width * height) (s : ℕ) :
    (levelPlane image width height s).1.length = width / 2 ^ s * (height / 2 ^ s) := by
  induction s with
  | zero => simpa [levelPlane] using hlen
  | succ t ih =>
    have hd := levelPlane_dims image width height t
    simp only [levelPlane, hd, downsampleCore_length]
    rw [Nat.div_div_eq_div_mul, Nat.div_div_eq_div_mul, ← pow_succ]
    exact Nat.mul_comm _ _

theorem except_bind_ok {ε α β : Type} (a : α) (f : α → Except ε β) :
    (Except.ok (ε := ε) a >>= f) = f a := rfl

theorem pyramidLevels_ok (n : ℕ) :
    ∀ (r d : List ℕ) (w h : ℕ), 2 ^ n ≤ w → 2 ^ n ≤ h →
      pyramidLevels n r d w h =
        .ok ((List.range (n + 1)).map fun s =>
          ((levelPlane r w h s).1, (levelPlane d w h s).1, w / 2 ^ s, h / 2 ^ s)) := by
  induction n with
  | zero =>
    intro r d w h _ _
    have hr1 : List.range 1 = [0] := rfl
    rw [pyramidLevels, hr1, List.map_cons, List.map_nil]
    simp [levelPlane]
  | succ m ih =>
    intro r d w h hw hh
    have hp2 : (2 : ℕ) ≤ 2 ^ (m + 1) := by
      calc (2 : ℕ) = 2 ^ 1 := (pow_one 2).symm
      _ ≤ 2 ^ (m + 1) := Nat.pow_le_pow_right (by norm_num) (by omega)
    have h2w : 2 ≤ w := le_trans hp2 hw
    have h2h : 2 ≤ h := le_trans hp2 hh
    have hcond : ¬(w / 2 = 0 ∨ h / 2 = 0) := by
      push_neg
      exact ⟨by omega, by omega⟩
    have hw2 : 2 ^ m ≤ w / 2 := by
      rw [Nat.le_div_iff_mul_le (by norm_num)]
      calc 2 ^ m * 2 = 2 ^ (m + 1) := (pow_succ 2 m).symm
      _ ≤ w := hw
    have hh2 : 2 ^ m ≤ h / 2 := by
      rw [Nat.le_div_iff_mul_le (by norm_num)]
      calc 2 ^ m * 2 = 2 ^ (m + 1) := (pow_succ 2 m).symm
      _ ≤ h := hh
    rw [pyramidLevels, downsample_2x2, if_neg hcond]
    rw [except_bind_ok, downsample_2x2, if_neg hcond, except_bind_ok,
      ih (downsampleCore r w h) (downsampleCore d w h) (w / 2) (h / 2) hw2 hh2,
      except_bind_ok]
    congr 1
    have hcons : List.range (m + 1 + 1) = 0 :: (List.range (m + 1)).map Nat.succ :=
      List.range_succ_eq_map (m + 1)
    rw [hcons, List.map_cons, List.map_map]
    congr 1
    · simp [levelPlane]
    · apply List.map_congr_left
      intro s _
      simp only [Function.comp_apply, Nat.succ_eq_add_one]
      rw [levelPlane_shift, levelPlane_shift, Nat.div_div_eq_div_mul, Nat.div_div_eq_div_mul,
        ← pow_succ']

theorem msssimFold_eq_prod {F : Type} [LinearOrderedField F] (powf : F → F → F) :
    ∀ (l : List (F × F)) (acc : F), (∀ p ∈ l, 0 < p.1) →
      msssimFold powf l acc = acc * (l.map fun p => powf p.1 p.2).prod := by
  intro l
  induction l with
  | nil => intro acc _; simp [msssimFold]
  | cons p rest ih =>
    intro acc hpos
    obtain ⟨v, wt⟩ := p
    have hv : 0 < v := hpos (v, wt) (List.mem_cons_self _ _)
    rw [msssimFold, if_neg (not_le.mpr hv), ih (acc * powf v wt)
      (fun q hq => hpos q (List.mem_cons_of_mem _ hq))]
    simp [mul_assoc]

theorem msssimFold_eq_zero {F : Type} [LinearOrderedField F] (powf : F → F → F) :
    ∀ (l : List (F × F)) (acc : F), (∃ p ∈ l, p.1 ≤ 0) → msssimFold powf l acc = 0 := by
  intro l
  induction l with
  | nil => intro acc h; simp at h
  | cons p rest ih =>
    intro acc hex
    obtain ⟨v, wt⟩ := p
    by_cases hv : v ≤ 0
    · rw [msssimFold, if_pos hv]
    · rw [msssimFold, if_neg hv]
      apply ih
      obtain ⟨q, hq, hq0⟩ := hex
      rcases List.mem_cons.mp hq with hq1 | hq2
      · exact absurd (hq1 ▸ hq0) (by simpa using hv)
      · exact ⟨q, hq2, hq0⟩

theorem msssim_y_eq (gexp : F → F) (powf : F → F → F) (ref_y dist_y : List ℕ) (w h : ℕ)
    (h1 : ref_y.length = dist_y.length) (h2 : ref_y.length = w * h)
    (hw : 32 ≤ w) (hh : 32 ≤ h) :
    msssim_y gexp powf ref_y dist_y w h =
      .ok (msssimFold powf
        (((List.range 5).map fun s =>
          ssimValue (F := F) (levelPlane ref_y w h s).1 (levelPlane dist_y w h s).1
            (w / 2 ^ s * (h / 2 ^ s))).zip msssimWeights) 1) := by
  have hd2 : dist_y.length = w * h := h1 ▸ h2
  have hp : (16 : ℕ) = 2 ^ 4 := by norm_num
  rw [msssim_y, if_neg (by push_neg; exact ⟨h1, h2⟩), if_neg (by push_neg; omega)]
  rw [pyramidLevels_ok 4 ref_y dist_y w h (by omega) (by omega), except_bind_ok]
  have hrange : List.range 5 = [0, 1, 2, 3, 4] := rfl
  simp only [hrange, List.map_cons, List.map_nil, List.mapM_cons, List.mapM_nil]
  rw [ssim_y_eq gexp _ _ _ _ (by rw [levelPlane_length ref_y w h h2, levelPlane_length dist_y w h hd2]) (levelPlane_length ref_y w h h2 0),
    ssim_y_eq gexp _ _ _ _ (by rw [levelPlane_length ref_y w h h2, levelPlane_length dist_y w h hd2]) (levelPlane_length ref_y w h h2 1),
    ssim_y_eq gexp _ _ _ _ (by rw [levelPlane_length ref_y w h h2, levelPlane_length dist_y w h hd2]) (levelPlane_length ref_y w h h2 2),
    ssim_y_eq gexp _ _ _ _ (by rw [levelPlane_length ref_y w h h2, levelPlane_length dist_y w h hd2]) (levelPlane_length ref_y w h h2 3),
    ssim_y_eq gexp _ _ _ _ (by rw [levelPlane_length ref_y w h h2, levelPlane_length dist_y w h hd2]) (levelPlane_length ref_y w h h2 4)]
  rfl

theorem msssim_y_self (gexp : F → F) (powf : F → F → F) (p : List ℕ) (w h : ℕ)
    (hlen : p.length = w * h) (hw : 32 ≤ w) (hh : 32 ≤ h)
    (hpow : ∀ e, powf 1 e = 1) :
    msssim_y gexp powf p p w h = .ok 1 := by
  rw [msssim_y_eq gexp powf p p w h rfl hlen hw hh]
  congr 1
  have hall : ∀ s, ssimValue (F := F) (levelPlane p w h s).1 (levelPlane p w h s).1
      (w / 2 ^ s * (h / 2 ^ s)) = 1 := fun s => ssimValue_self _ _
  simp only [hall]
  rw [msssimFold_eq_prod powf _ 1 (by
    intro q hq
    rcases List.of_mem_zip hq with ⟨hq1, _⟩
    rcases List.mem_map.mp hq1 with ⟨s, _, hs⟩
    rw [← hs]
    norm_num)]
  have hzip : ((List.range 5).map fun _ => (1 : F)).zip (msssimWeights (F := F)) =
      [((1 : F), (448 / 10000 : F)), (1, 2856 / 10000), (1, 3001 / 10000),
        (1, 2363 / 10000), (1, 1333 / 10000)] := rfl
  rw [hzip]
  simp [hpow]

theorem list_sum_map_div (l : List F) (s : F) : (l.map fun k => k / s).sum = l.sum / s := by
  induction l with
  | nil => simp
  | cons a t ih => simp [ih, add_div]

theorem getD_map_div (l : List F) (s : F) (i : ℕ) (hi : i < l.length) :
    ((l.map fun k => k / s).getD i 0) = l.getD i 0 / s := by
  rw [List.getD_eq_getElem?_getD, List.getElem?_map, List.getElem?_eq_getElem hi,
    List.getD_eq_getElem?_getD, List.getElem?_eq_getElem hi]
  rfl

theorem gaussianRaw_length (gexp : F → F) (size : ℕ) (sigma : F) :
    (gaussianRaw gexp size sigma).length = size := by
  simp [gaussianRaw]

theorem gaussianRaw_getD (gexp : F → F) (size : ℕ) (sigma : F) {i : ℕ} (hi : i < size) :
    (gaussianRaw gexp size sigma).getD i 0 =
      gexp ((-(((i : F) - ((size / 2 : ℕ) : F)) * ((i : F) - ((size / 2 : ℕ) : F)))) /
        (2 * sigma * sigma)) := by
  rw [gaussianRaw]
  exact getD_range_map _ size i 0 hi

theorem gaussianRaw_sum_pos (gexp : F → F) (size : ℕ) (sigma : F) (hsize : 0 < size)
    (hpos : ∀ x, 0 < gexp x) : 0 < (gaussianRaw gexp size sigma).sum := by
  apply List.sum_pos
  · intro x hx
    simp only [gaussianRaw, List.mem_map] at hx
    obtain ⟨i, _, hix⟩ := hx
    rw [← hix]
    exact hpos _
  · intro hnil
    have hl := gaussianRaw_length gexp size sigma
    rw [hnil] at hl
    simp at hl
    omega

theorem generate_gaussian_kernel_length (gexp : F → F) (size : ℕ) (sigma : F) :
    (generate_gaussian_kernel gexp size sigma).length = size := by
  simp [generate_gaussian_kernel, gaussianRaw]

theorem generate_gaussian_kernel_sum (gexp : F → F) (size : ℕ) (sigma : F)
    (hsize : 0 < size) (hpos : ∀ x, 0 < gexp x) :
    (generate_gaussian_kernel gexp size sigma).sum = 1 := by
  rw [generate_gaussian_kernel, list_sum_map_div,
    div_self (ne_of_gt (gaussianRaw_sum_pos gexp size sigma hsize hpos))]

theorem generate_gaussian_kernel_getD (gexp : F → F) (size : ℕ) (sigma : F) {i : ℕ}
    (hi : i < size) :
    (generate_gaussian_kernel gexp size sigma).getD i 0 =
      gexp ((-(((i : F) - ((size / 2 : ℕ) : F)) * ((i : F) - ((size / 2 : ℕ) : F)))) /
          (2 * sigma * sigma)) /
        (gaussianRaw gexp size sigma).sum := by
  rw [generate_gaussian_kernel,
    getD_map_div _ _ i (by rw [gaussianRaw_length]; exact hi),
    gaussianRaw_getD gexp size sigma hi]

theorem gaussian_kernel_symm (gexp : F → F) (sigma : F) {i : ℕ} (hi : i < 11) :
    (generate_gaussian_kernel gexp 11 sigma).getD i 0 =
      (generate_gaussian_kernel gexp 11 sigma).getD (10 - i) 0 := by
  rw [generate_gaussian_kernel_getD gexp 11 sigma hi,
    generate_gaussian_kernel_getD gexp 11 sigma (by omega : 10 - i < 11)]
  congr 2
  have hc : ((10 - i : ℕ) : F) = 10 - (i : F) := by
    have h10 : i ≤ 10 := by omega
    push_cast [h10]
    ring
  have h5 : ((11 / 2 : ℕ) : F) = 5 := by norm_num
  rw [hc, h5]
  ring

theorem gaussian_kernel_le_center (gexp : F → F) (sigma : F) (hsigma : 0 < sigma)
    (hpos : ∀ x, 0 < gexp x) (hmono : Monotone gexp) {i : ℕ} (hi : i < 11) :
    (generate_gaussian_kernel gexp 11 sigma).getD i 0 ≤
      (generate_gaussian_kernel gexp 11 sigma).getD 5 0 := by
  rw [generate_gaussian_kernel_getD gexp 11 sigma hi,
    generate_gaussian_kernel_getD gexp 11 sigma (by omega : (5 : ℕ) < 11)]
  have hS := gaussianRaw_sum_pos gexp 11 sigma (by omega) hpos
  have h2s : (0 : F) < 2 * sigma * sigma := by positivity
  have harg : (-(((i : F) - ((11 / 2 : ℕ) : F)) * ((i : F) - ((11 / 2 : ℕ) : F)))) /
      (2 * sigma * sigma) ≤
        (-((((5 : ℕ) : F) - ((11 / 2 : ℕ) : F)) * (((5 : ℕ) : F) - ((11 / 2 : ℕ) : F)))) /
          (2 * sigma * sigma) := by
    have h5 : ((11 / 2 : ℕ) : F) = 5 := by norm_num
    have hz : (-((((5 : ℕ) : F) - ((11 / 2 : ℕ) : F)) * (((5 : ℕ) : F) - ((11 / 2 : ℕ) : F)))) /
        (2 * sigma * sigma) = 0 := by
      rw [h5]
      norm_num
    rw [hz]
    apply div_nonpos_of_nonpos_of_nonneg
    · exact neg_nonpos.mpr (mul_self_nonneg _)
    · exact h2s.le
  have hg := hmono harg
  gcongr

theorem psnr_y_branches (sqrtF log10F : F → F) (ref_y dist_y : List ℕ) (w h : ℕ)
    (h1 : ref_y.length = dist_y.length) (h2 : ref_y.length = w * h) :
    (mseVal (F := F) ref_y dist_y = 0 → psnr_y sqrtF log10F ref_y dist_y w h = .ok 100) ∧
    (mseVal (F := F) ref_y dist_y ≠ 0 →
      psnr_y sqrtF log10F ref_y dist_y w h =
        .ok (20 * log10F (255 / sqrtF (mseVal ref_y dist_y)))) := by
  constructor <;> intro hm <;> rw [psnr_y, if_neg (by push_neg; exact ⟨h1, h2⟩)]
  · rw [if_pos hm]
  · rw [if_neg hm]

theorem mseVal_uniform (ref_y dist_y : List ℕ) (d : ℤ) (n : ℕ) (hn : 0 < n)
    (href : ref_y.length = n)
    (hd : ∀ i < n, (dist_y.getD i 0 : ℤ) - (ref_y.getD i 0 : ℤ) = d) :
    mseVal (F := ℝ) ref_y dist_y = (d : ℝ) * (d : ℝ) := by
  rw [mseVal, href]
  have hterm : ∀ i ∈ Finset.range n,
      (((ref_y.getD i 0 : ℕ) : ℝ) - ((dist_y.getD i 0 : ℕ) : ℝ)) *
        (((ref_y.getD i 0 : ℕ) : ℝ) - ((dist_y.getD i 0 : ℕ) : ℝ)) = (d : ℝ) * (d : ℝ) := by
    intro i hi
    have h := hd i (Finset.mem_range.mp hi)
    have hcast : ((ref_y.getD i 0 : ℕ) : ℝ) - ((dist_y.getD i 0 : ℕ) : ℝ) = -(d : ℝ) := by
      have h2 : ((dist_y.getD i 0 : ℤ) : ℝ) - ((ref_y.getD i 0 : ℤ) : ℝ) = ((d : ℤ) : ℝ) := by
        rw [← Int.cast_sub, h]
      push_cast at h2 ⊢
      linarith
    rw [hcast]
    ring
  rw [Finset.sum_congr rfl hterm, Finset.sum_const, Finset.card_range, nsmul_eq_mul,
    mul_div_cancel_left₀ _ (Nat.cast_ne_zero.mpr hn.ne' : (n : ℝ) ≠ 0)]

theorem apply_gaussian_filter_length (image : List ℕ) (width height : ℕ)
    (kernel : List F) :
    (apply_gaussian_filter image width height kernel).length = height * width := by
  simp [apply_gaussian_filter]

theorem apply_gaussian_filter_getD (image : List ℕ) (width height : ℕ) (kernel : List F)
    (hw : filterIndicesInBounds width kernel.length = true)
    (hh : filterIndicesInBounds height kernel.length = true)
    {y x : ℕ} (hy : y < height) (hx : x < width) :
    (apply_gaussian_filter image width height kernel).getD (y * width + x) 0 =
      ∑ k in Finset.range kernel.length,
        (∑ j in Finset.range kernel.length,
          ((image.getD
              ((reflect height ((y : ℤ) + (k : ℤ) - ((kernel.length / 2 : ℕ) : ℤ))).toNat *
                  width +
                (reflect width ((x : ℤ) + (j : ℤ) - ((kernel.length / 2 : ℕ) : ℤ))).toNat)
              0 : ℕ) : F) *
            kernel.getD j 0) *
          kernel.getD k 0 := by
  have hwB := (filterIndicesInBounds_iff width kernel.length).mp hw
  have hhB := (filterIndicesInBounds_iff height kernel.length).mp hh
  rw [apply_gaussian_filter, getD_range_map _ _ _ _ (flat_lt hy hx)]
  simp only [vpassPix, flat_div hx, flat_mod hx]
  apply Finset.sum_congr rfl
  intro k hk
  congr 1
  obtain ⟨hr0, hrlt⟩ := hhB y hy k (Finset.mem_range.mp hk)
  obtain ⟨rn, hrn⟩ : ∃ rn : ℕ,
      reflect height ((y : ℤ) + (k : ℤ) - ((kernel.length / 2 : ℕ) : ℤ)) = (rn : ℕ) :=
    ⟨(reflect height ((y : ℤ) + (k : ℤ) - ((kernel.length / 2 : ℕ) : ℤ))).toNat,
      (Int.toNat_of_nonneg hr0).symm⟩
  have hrnlt : rn < height := by
    rw [hrn] at hrlt
    exact_mod_cast hrlt
  rw [hrn]
  have hidx : ((rn : ℤ) * (width : ℤ) + (x : ℤ)) = ((rn * width + x : ℕ) : ℤ) := by
    push_cast
    ring
  rw [hidx, vget, if_neg (by exact not_lt.mpr (Int.natCast_nonneg _)), Int.toNat_natCast]
  rw [filterTemp, getD_range_map _ _ _ _ (flat_lt hrnlt hx)]
  simp only [hpassPix, flat_div hx, flat_mod hx]
  apply Finset.sum_congr rfl
  intro j hj
  congr 2
  obtain ⟨hc0, hclt⟩ := hwB x hx j (Finset.mem_range.mp hj)
  obtain ⟨cn, hcn⟩ : ∃ cn : ℕ,
      reflect width ((x : ℤ) + (j : ℤ) - ((kernel.length / 2 : ℕ) : ℤ)) = (cn : ℕ) :=
    ⟨(reflect width ((x : ℤ) + (j : ℤ) - ((kernel.length / 2 : ℕ) : ℤ))).toNat,
      (Int.toNat_of_nonneg hc0).symm⟩
  rw [hcn]
  have hidx2 : ((rn : ℤ) * (width : ℤ) + (cn : ℤ)) = ((rn * width + cn : ℕ) : ℤ) := by
    push_cast
    ring
  rw [hidx2, vget, if_neg (by exact not_lt.mpr (Int.natCast_nonneg _))]
  simp only [Int.toNat_natCast]

theorem filterIndicesInBounds_of_five_le {d : ℕ} (hd : 5 ≤ d) :
    filterIndicesInBounds d 11 = true := by
  rw [filterIndicesInBounds_iff]
  intro x hx k hk
  have h5 : (11 / 2 : ℕ) = 5 := rfl
  rw [h5]
  exact reflect_inBounds_of_five_le hd hx hk

theorem getD_lt {l : List ℕ} (h8 : ∀ v ∈ l, v < 256) (i : ℕ) : l.getD i 0 < 256 := by
  rw [List.getD_eq_getElem?_getD]
  cases h : l[i]? with
  | none => simp
  | some v =>
    have hv : v ∈ l := by
      obtain ⟨hlt, hev⟩ := List.getElem?_eq_some.mp h
      exact hev ▸ List.getElem_mem hlt
    simpa using h8 v hv

theorem downsample_2x2_error (image : List ℕ) (width height : ℕ)
    (hcond : width / 2 = 0 ∨ height / 2 = 0) :
    downsample_2x2 image width height =
      .error (.invalidInput "Image too small for downsampling") := by
  rw [downsample_2x2, if_pos hcond]

theorem downsample_2x2_ok (image : List ℕ) (width height : ℕ)
    (hcond : ¬(width / 2 = 0 ∨ height / 2 = 0)) :
    downsample_2x2 image width height =
      .ok (downsampleCore image width height, width / 2, height / 2) := by
  rw [downsample_2x2, if_neg hcond]

theorem downsampleCore_getD (image : List ℕ) (width height : ℕ) {x y : ℕ}
    (hx : x < width / 2) (hy : y < height / 2) :
    (downsampleCore image width height).getD (y * (width / 2) + x) 0 =
      downsamplePix image width height x y := by
  rw [downsampleCore, getD_range_map _ _ _ _ (flat_lt hy hx), flat_div hx, flat_mod hx]

theorem downsamplePix_eq (image : List ℕ) (width height x y : ℕ)
    (h8 : ∀ v ∈ image, v < 256) :
    downsamplePix image width height x y =
      (image.getD (y * 2 * width + x * 2) 0 +
        (if x * 2 + 1 < width then image.getD (y * 2 * width + (x * 2 + 1)) 0 else 0) +
        (if y * 2 + 1 < height then image.getD ((y * 2 + 1) * width + x * 2) 0 else 0) +
        (if x * 2 + 1 < width ∧ y * 2 + 1 < height then
          image.getD ((y * 2 + 1) * width + (x * 2 + 1)) 0
        else 0)) / 4 := by
  rw [downsamplePix]
  apply Nat.mod_eq_of_lt
  have c1 := getD_lt h8 (y * 2 * width + x * 2)
  have c2 := getD_lt h8 (y * 2 * width + (x * 2 + 1))
  have c3 := getD_lt h8 ((y * 2 + 1) * width + x * 2)
  have c4 := getD_lt h8 ((y * 2 + 1) * width + (x * 2 + 1))
  split_ifs <;> omega

theorem read_frame_ok (stream : List ℕ) (width height : ℕ)
    (hlen : width * height + (width / 2 * (height / 2) + width / 2 * (height / 2)) ≤
      stream.length) :
    read_yuv420p_frame stream width height =
      .ok (⟨stream.take (width * height),
          (stream.drop (width * height)).take (width / 2 * (height / 2)),
          ((stream.drop (width * height)).drop (width / 2 * (height / 2))).take
            (width / 2 * (height / 2)),
          width, height⟩,
        ((stream.drop (width * height)).drop (width / 2 * (height / 2))).drop
          (width / 2 * (height / 2))) := by
  have ld1 : (stream.drop (width * height)).length = stream.length - width * height :=
    List.length_drop _ _
  have ld2 : ((stream.drop (width * height)).drop (width / 2 * (height / 2))).length =
      stream.length - width * height - width / 2 * (height / 2) := by
    rw [List.length_drop, ld1]
  rw [read_yuv420p_frame]
  rw [if_pos (by omega), if_pos (by omega), if_pos (by omega)]

theorem read_frame_short (stream : List ℕ) (width height : ℕ)
    (hlen : stream.length <
      width * height + (width / 2 * (height / 2) + width / 2 * (height / 2))) :
    ∃ msg, read_yuv420p_frame stream width height = .error (.decodeError msg) := by
  have ld1 : (stream.drop (width * height)).length = stream.length - width * height :=
    List.length_drop _ _
  have ld2 : ((stream.drop (width * height)).drop (width / 2 * (height / 2))).length =
      stream.length - width * height - width / 2 * (height / 2) := by
    rw [List.length_drop, ld1]
  rw [read_yuv420p_frame]
  by_cases c1 : width * height ≤ stream.length
  · rw [if_pos c1]
    by_cases c2 : width / 2 * (height / 2) ≤ (stream.drop (width * height)).length
    · rw [if_pos c2]
      rw [if_neg (by omega)]
      exact ⟨_, rfl⟩
    · rw [if_neg c2]
      exact ⟨_, rfl⟩
  · rw [if_neg c1]
    exact ⟨_, rfl⟩

theorem mem_zip_of_getD {α β : Type} (l1 : List α) (l2 : List β) (s : ℕ) (d1 : α) (d2 : β)
    (h1 : s < l1.length) (h2 : s < l2.length) :
    (l1.getD s d1, l2.getD s d2) ∈ l1.zip l2 := by
  have hz : s < (l1.zip l2).length := by
    rw [List.length_zip]
    omega
  rw [List.getD_eq_getElem l1 d1 h1, List.getD_eq_getElem l2 d2 h2]
  have he : (l1.zip l2)[s] = (l1[s], l2[s]) := List.getElem_zip
  rw [← he]
  exact List.getElem_mem hz

end Lemmas

/-! ## Claim theorems -/

/-- C1: the claim is false of the code and the spec records the intent: ssim_y never
derives its result from the local Gaussian-windowed statistics.  Its output is entirely
independent of the exponential used to build the kernel (hence of the Gaussian
filtering it performs and discards), and at the concrete 2x2 pair below it returns the
global-statistics quotient -19973/20027 rather than the mean of a per-pixel SSIM map. -/
theorem ssim_y_ignores_local_statistics :
    (∀ (F : Type) [LinearOrderedField F] (gexp₁ gexp₂ : F → F)
        (ref_y dist_y : List ℕ) (w h : ℕ),
      ssim_y gexp₁ ref_y dist_y w h = ssim_y gexp₂ ref_y dist_y w h) ∧
    ssim_y (F := ℚ) (fun _ => 1) [0, 255, 0, 255] [255, 0, 255, 0] 2 2 =
      .ok (-19973 / 20027) := by
  constructor
  · intro F _ g1 g2 ref_y dist_y w h
    rfl
  · rw [ssim_y_eq (fun _ => 1) [0, 255, 0, 255] [255, 0, 255, 0] 2 2 rfl rfl,
      ssimValue_eq_div]
    congr 1
    have hm1 : globalMean (F := ℚ) [0, 255, 0, 255] (2 * 2) = 255 / 2 := by
      norm_num [globalMean, Finset.sum_range_succ, Finset.sum_range_zero]
    have hm2 : globalMean (F := ℚ) [255, 0, 255, 0] (2 * 2) = 255 / 2 := by
      norm_num [globalMean, Finset.sum_range_succ, Finset.sum_range_zero]
    have hcv1 : globalCovar (F := ℚ) [0, 255, 0, 255] [0, 255, 0, 255] (2 * 2) = 21675 := by
      rw [globalCovar, hm1]
      norm_num [Finset.sum_range_succ, Finset.sum_range_zero]
    have hcv2 : globalCovar (F := ℚ) [255, 0, 255, 0] [255, 0, 255, 0] (2 * 2) = 21675 := by
      rw [globalCovar, hm2]
      norm_num [Finset.sum_range_succ, Finset.sum_range_zero]
    have hcv : globalCovar (F := ℚ) [0, 255, 0, 255] [255, 0, 255, 0] (2 * 2) = -21675 := by
      rw [globalCovar, hm1, hm2]
      norm_num [Finset.sum_range_succ, Finset.sum_range_zero]
    simp only [ssimNumerator, ssimDenominator, globalVar, hm1, hm2, hcv1, hcv2, hcv,
      ssimC1, ssimC2]
    norm_num

/-- C2: msssim_y on equal-sized planes with width, height at least 32 builds the
5-level pyramid by repeated 2x2 downsampling (level 0 the original), evaluates SSIM on
every level, returns 0 as soon as any scale value is non-positive, and otherwise
returns the weighted product of powf applied to the per-scale SSIM values and the
Wang et al. weights; below 32 in either dimension it fails with the "image too small"
invalid-input error. -/
theorem msssim_y_claim {F : Type} [LinearOrderedField F] (gexp : F → F)
    (powf : F → F → F) (ref_y dist_y : List ℕ) (w h : ℕ)
    (h1 : ref_y.length = dist_y.length) (h2 : ref_y.length = w * h) :
    (w < 32 ∨ h < 32 →
      msssim_y gexp powf ref_y dist_y w h =
        .error (.invalidInput "Image too small for MS-SSIM calculation with 5 scales")) ∧
    (32 ≤ w → 32 ≤ h →
      (∀ s < 5, ssim_y gexp (levelPlane ref_y w h s).1 (levelPlane dist_y w h s).1
          (w / 2 ^ s) (h / 2 ^ s) =
        .ok (ssimValue (levelPlane ref_y w h s).1 (levelPlane dist_y w h s).1
          (w / 2 ^ s * (h / 2 ^ s)))) ∧
      ((∃ s < 5, ssimValue (F := F) (levelPlane ref_y w h s).1 (levelPlane dist_y w h s).1
          (w / 2 ^ s * (h / 2 ^ s)) ≤ 0) →
        msssim_y gexp powf ref_y dist_y w h = .ok 0) ∧
      ((∀ s < 5, 0 < ssimValue (F := F) (levelPlane ref_y w h s).1
          (levelPlane dist_y w h s).1 (w / 2 ^ s * (h / 2 ^ s))) →
        msssim_y gexp powf ref_y dist_y w h =
          .ok (∏ s in Finset.range 5,
            powf (ssimValue (levelPlane ref_y w h s).1 (levelPlane dist_y w h s).1
                (w / 2 ^ s * (h / 2 ^ s)))
              ((msssimWeights (F := F)).getD s 0)))) := by
  have hd2 : dist_y.length = w * h := h1 ▸ h2
  constructor
  · intro hsmall
    rw [msssim_y, if_neg (by push_neg; exact ⟨h1, h2⟩), if_pos hsmall]
  · intro hw hh
    refine ⟨?_, ?_, ?_⟩
    · intro s hs
      exact ssim_y_eq gexp _ _ _ _
        (by rw [levelPlane_length ref_y w h h2, levelPlane_length dist_y w h hd2])
        (levelPlane_length ref_y w h h2 s)
    · intro hex
      obtain ⟨s, hs, hle⟩ := hex
      rw [msssim_y_eq gexp powf ref_y dist_y w h h1 h2 hw hh]
      congr 1
      apply msssimFold_eq_zero
      have hm := mem_zip_of_getD
        ((List.range 5).map fun s => ssimValue (F := F) (levelPlane ref_y w h s).1
          (levelPlane dist_y w h s).1 (w / 2 ^ s * (h / 2 ^ s)))
        (msssimWeights (F := F)) s 0 0 (by simpa using hs) (by rw [msssimWeights]; simpa using hs)
      rw [getD_range_map _ 5 s 0 hs] at hm
      exact ⟨_, hm, hle⟩
    · intro hall
      rw [msssim_y_eq gexp powf ref_y dist_y w h h1 h2 hw hh]
      congr 1
      rw [msssimFold_eq_prod powf _ 1 (by
        intro p hp
        have hp1 := List.of_mem_zip hp
        obtain ⟨s, hs, hps⟩ := List.mem_map.mp hp1.1
        rw [← hps]
        exact hall s (by simpa using hs))]
      rw [one_mul]
      have hrange : List.range 5 = [0, 1, 2, 3, 4] := rfl
      simp only [hrange, List.map_cons, List.map_nil, List.zip_cons_cons, List.zip_nil_right,
        List.prod_cons, List.prod_nil, Finset.prod_range_succ, Finset.prod_range_zero,
        msssimWeights, List.getD_cons_zero, List.getD_cons_succ]
      ring

/-- C3: psnr_y on valid equal-sized planes returns the sentinel 100 when the mean
squared error (computed in real arithmetic) is exactly 0, otherwise the value
20*log10(255/sqrt(MSE)), and on planes differing by a uniform integer offset d it
returns exactly 20*log10(255/|d|). -/
theorem psnr_y_claim (ref_y dist_y : List ℕ) (w h : ℕ)
    (h1 : ref_y.length = dist_y.length) (h2 : ref_y.length = w * h) :
    (mseVal (F := ℝ) ref_y dist_y = 0 →
      psnr_y Real.sqrt (Real.logb 10) ref_y dist_y w h = .ok 100) ∧
    (mseVal (F := ℝ) ref_y dist_y ≠ 0 →
      psnr_y Real.sqrt (Real.logb 10) ref_y dist_y w h =
        .ok (20 * Real.logb 10 (255 / Real.sqrt (mseVal ref_y dist_y)))) ∧
    (∀ d : ℤ, d ≠ 0 → 0 < w * h →
      (∀ i < w * h, (dist_y.getD i 0 : ℤ) - (ref_y.getD i 0 : ℤ) = d) →
      psnr_y Real.sqrt (Real.logb 10) ref_y dist_y w h =
        .ok (20 * Real.logb 10 (255 / ((|d| : ℤ) : ℝ)))) := by
  refine ⟨(psnr_y_branches _ _ _ _ _ _ h1 h2).1, (psnr_y_branches _ _ _ _ _ _ h1 h2).2, ?_⟩
  intro d hd hn hunif
  have hmse : mseVal (F := ℝ) ref_y dist_y = (d : ℝ) * (d : ℝ) :=
    mseVal_uniform ref_y dist_y d (w * h) hn h2 hunif
  have hdr : ((d : ℤ) : ℝ) ≠ 0 := Int.cast_ne_zero.mpr hd
  have hne : mseVal (F := ℝ) ref_y dist_y ≠ 0 := by
    rw [hmse]
    exact mul_ne_zero hdr hdr
  rw [(psnr_y_branches _ _ _ _ _ _ h1 h2).2 hne, hmse, Real.sqrt_mul_self_eq_abs,
    Int.cast_abs]

/-- C4: downsample_2x2 fails with the "image too small" invalid-input error exactly
when a halved dimension is 0, and on an 8-bit plane of declared size at least 2x2 it
returns the floor(w/2) by floor(h/2) plane whose sample at (x, y) is the
floor-divided-by-4 sum of the in-range samples of the 2x2 block at (2x, 2y); the 4x4
plane with uniform quadrants 100, 200, 50, 150 downsamples exactly to [100, 200, 50,
150]. -/
theorem downsample_2x2_claim (image : List ℕ) (w h : ℕ) :
    (w / 2 = 0 ∨ h / 2 = 0 →
      downsample_2x2 image w h =
        .error (.invalidInput "Image too small for downsampling")) ∧
    (2 ≤ w → 2 ≤ h → (∀ v ∈ image, v < 256) →
      downsample_2x2 image w h = .ok (downsampleCore image w h, w / 2, h / 2) ∧
      (downsampleCore image w h).length = h / 2 * (w / 2) ∧
      (∀ x < w / 2, ∀ y < h / 2,
        (downsampleCore image w h).getD (y * (w / 2) + x) 0 =
          (image.getD (y * 2 * w + x * 2) 0 +
            (if x * 2 + 1 < w then image.getD (y * 2 * w + (x * 2 + 1)) 0 else 0) +
            (if y * 2 + 1 < h then image.getD ((y * 2 + 1) * w + x * 2) 0 else 0) +
            (if x * 2 + 1 < w ∧ y * 2 + 1 < h then
              image.getD ((y * 2 + 1) * w + (x * 2 + 1)) 0
            else 0)) / 4)) ∧
    downsample_2x2 [100, 100, 200, 200, 100, 100, 200, 200, 50, 50, 150, 150,
        50, 50, 150, 150] 4 4 = .ok ([100, 200, 50, 150], 2, 2) := by
  refine ⟨downsample_2x2_error image w h, ?_, by decide⟩
  intro hw hh h8
  refine ⟨downsample_2x2_ok image w h (by push_neg; exact ⟨by omega, by omega⟩),
    downsampleCore_length image w h, ?_⟩
  intro x hx y hy
  rw [downsampleCore_getD image w h hx hy, downsamplePix_eq image w h x y h8]

/-- C5: apply_gaussian_filter produces a real-valued plane of the same width*height
size whose sample at (x, y) is the kernel applied along the row and then along the
column with reflected border indices, and the reflection maps an index i < 0 to -i and
an index i >= dim to 2*dim-i-1; nothing clamps the output back to 8 bits. -/
theorem apply_gaussian_filter_claim {F : Type} [LinearOrderedField F] (image : List ℕ)
    (w h : ℕ) (kernel : List F) (hlen : image.length = w * h)
    (hw : filterIndicesInBounds w kernel.length = true)
    (hh : filterIndicesInBounds h kernel.length = true) :
    (apply_gaussian_filter image w h kernel).length = w * h ∧
    (∀ y < h, ∀ x < w,
      (apply_gaussian_filter image w h kernel).getD (y * w + x) 0 =
        ∑ k in Finset.range kernel.length,
          (∑ j in Finset.range kernel.length,
            ((image.getD
                ((reflect h ((y : ℤ) + (k : ℤ) - ((kernel.length / 2 : ℕ) : ℤ))).toNat * w +
                  (reflect w ((x : ℤ) + (j : ℤ) - ((kernel.length / 2 : ℕ) : ℤ))).toNat)
                0 : ℕ) : F) *
              kernel.getD j 0) *
            kernel.getD k 0) ∧
    (∀ dim i : ℤ, i < 0 → -i < dim → reflect dim i = -i) ∧
    (∀ dim i : ℤ, 0 ≤ i → dim ≤ i → reflect dim i = 2 * dim - i - 1) ∧
    (∀ dim i : ℤ, 0 ≤ i → i < dim → reflect dim i = i) := by
  refine ⟨by rw [apply_gaussian_filter_length]; exact Nat.mul_comm h w, ?_,
    fun dim i hi1 hi2 => reflect_of_neg hi1 hi2,
    fun dim i hi1 hi2 => reflect_of_ge hi1 hi2,
    fun dim i hi1 hi2 => reflect_of_mem hi1 hi2⟩
  intro y hy x hx
  exact apply_gaussian_filter_getD image w h kernel hw hh hy hx

/-- C6: on any non-degenerate plane paired with itself, ssim_y returns exactly 1, and
on any such plane of width and height at least 32, msssim_y returns exactly 1 for any
power function fixing 1. -/
theorem metric_self_claim {F : Type} [LinearOrderedField F] (gexp : F → F)
    (powf : F → F → F) (p : List ℕ) (w h : ℕ) (hlen : p.length = w * h) :
    (1 ≤ w → 1 ≤ h → ssim_y gexp p p w h = .ok 1) ∧
    (32 ≤ w → 32 ≤ h → (∀ e : F, powf 1 e = 1) →
      msssim_y gexp powf p p w h = .ok 1) :=
  ⟨fun _ _ => ssim_y_self gexp p w h hlen,
    fun hw hh hpow => msssim_y_self gexp powf p w h hlen hw hh hpow⟩

/-- C7: generate_gaussian_kernel returns size weights, each the abstracted exponential
of -(i-center)^2/(2*sigma^2) divided by the raw sum, so the kernel sums to exactly 1;
for size 11 the sum is within 1e-10 of 1, the kernel is symmetric, and the center index
5 holds the maximum entry. -/
theorem gaussian_kernel_claim {F : Type} [LinearOrderedField F] (gexp : F → F)
    (size : ℕ) (sigma : F) (hsize : 0 < size) (hsigma : 0 < sigma)
    (hpos : ∀ x, 0 < gexp x) (hmono : Monotone gexp) :
    (generate_gaussian_kernel gexp size sigma).length = size ∧
    (∀ i < size, (generate_gaussian_kernel gexp size sigma).getD i 0 =
      gexp ((-(((i : F) - ((size / 2 : ℕ) : F)) * ((i : F) - ((size / 2 : ℕ) : F)))) /
          (2 * sigma * sigma)) / (gaussianRaw gexp size sigma).sum) ∧
    (generate_gaussian_kernel gexp size sigma).sum = 1 ∧
    |(generate_gaussian_kernel gexp 11 sigma).sum - 1| ≤ 1 / 10 ^ 10 ∧
    (∀ i < 11, (generate_gaussian_kernel gexp 11 sigma).getD i 0 =
      (generate_gaussian_kernel gexp 11 sigma).getD (10 - i) 0) ∧
    (∀ i < 11, (generate_gaussian_kernel gexp 11 sigma).getD i 0 ≤
      (generate_gaussian_kernel gexp 11 sigma).getD 5 0) := by
  refine ⟨generate_gaussian_kernel_length gexp size sigma,
    fun i hi => generate_gaussian_kernel_getD gexp size sigma hi,
    generate_gaussian_kernel_sum gexp size sigma hsize hpos, ?_,
    fun i hi => gaussian_kernel_symm gexp sigma hi,
    fun i hi => gaussian_kernel_le_center gexp sigma hsigma hpos hmono hi⟩
  rw [generate_gaussian_kernel_sum gexp 11 sigma (by omega) hpos]
  norm_num

/-- C8: read_yuv420p_frame reads width*height luma bytes and then two chroma planes of
floor(width/2)*floor(height/2) bytes each, in the order Y, U, V; a stream long enough
yields exactly that frame, a shorter stream yields a decode error, and any returned
frame always has all three planes fully populated with the claimed sizes. -/
theorem read_yuv420p_frame_claim (stream : List ℕ) (w h : ℕ) (hw : 0 < w) (hh : 0 < h) :
    (w * h + (w / 2 * (h / 2) + w / 2 * (h / 2)) ≤ stream.length →
      read_yuv420p_frame stream w h =
        .ok (⟨stream.take (w * h),
            (stream.drop (w * h)).take (w / 2 * (h / 2)),
            ((stream.drop (w * h)).drop (w / 2 * (h / 2))).take (w / 2 * (h / 2)),
            w, h⟩,
          ((stream.drop (w * h)).drop (w / 2 * (h / 2))).drop (w / 2 * (h / 2)))) ∧
    (stream.length < w * h + (w / 2 * (h / 2) + w / 2 * (h / 2)) →
      ∃ msg, read_yuv420p_frame stream w h = .error (.decodeError msg)) ∧
    (∀ fr rest, read_yuv420p_frame stream w h = .ok (fr, rest) →
      fr.y.length = w * h ∧ fr.u.length = w / 2 * (h / 2) ∧
      fr.v.length = w / 2 * (h / 2) ∧
      fr.y = stream.take (w * h) ∧
      fr.u = (stream.drop (w * h)).take (w / 2 * (h / 2)) ∧
      fr.v = ((stream.drop (w * h)).drop (w / 2 * (h / 2))).take (w / 2 * (h / 2))) := by
  have ld1 : (stream.drop (w * h)).length = stream.length - w * h := List.length_drop _ _
  have ld2 : ((stream.drop (w * h)).drop (w / 2 * (h / 2))).length =
      stream.length - w * h - w / 2 * (h / 2) := by
    rw [List.length_drop, ld1]
  refine ⟨read_frame_ok stream w h, read_frame_short stream w h, ?_⟩
  intro fr rest
  simp only [read_yuv420p_frame]
  split_ifs with c1 c2 c3
  · intro hok
    rw [Except.ok.injEq, Prod.mk.injEq] at hok
    obtain ⟨hfr, hrest⟩ := hok
    subst hfr
    refine ⟨?_, ?_, ?_, rfl, rfl, rfl⟩
    · rw [List.length_take]
      omega
    · rw [List.length_take]
      omega
    · rw [List.length_take]
      omega
  · intro hok
    simp at hok
  · intro hok
    simp at hok
  · intro hok
    simp at hok

/-- C9 counterexample: the claim locates the out-of-bounds regime at dim <=
kernel_size/2 = 5 for the 11-tap kernel, but at dimension 5 every index sampled by a
filter pass is corrected into [0, 5), so no out-of-bounds access is possible there. -/
theorem reflect_claim_counterexample : filterIndicesInBounds 5 11 = true := by decide

/-- C9 (amended): with the 11-tap kernel the two sequential reflection corrections can
produce an index outside [0, dim) exactly for dimensions 1 to 4 (for example dim 2 maps
the raw index -5 to 5 and then to -2), while every dimension of at least 5 stays in
bounds; msssim_y at its minimal 32x32 precondition reaches the 2x2 level of the
pyramid, whose ssim_y call filters with the 11-tap kernel there. -/
theorem reflect_claim_amended {F : Type} [LinearOrderedField F] (gexp : F → F)
    (sigma : F) :
    (∀ d : ℕ, 1 ≤ d → d ≤ 4 → filterIndicesInBounds d 11 = false) ∧
    (∀ d : ℕ, 5 ≤ d → filterIndicesInBounds d 11 = true) ∧
    reflect 2 (0 + 0 - 5) = -2 ∧
    (generate_gaussian_kernel gexp 11 sigma).length = 11 ∧
    (∀ img : List ℕ, (levelPlane img 32 32 4).2 = (2, 2)) := by
  refine ⟨?_, fun d hd => filterIndicesInBounds_of_five_le hd, by decide,
    generate_gaussian_kernel_length gexp 11 sigma, ?_⟩
  · intro d hd1 hd4
    interval_cases d <;> decide
  · intro img
    rw [levelPlane_dims]
    norm_num

/-- C10: for every input pair passing the size validation, the SSIM denominator built
from the global statistics is strictly positive, so ssim_y always takes the quotient
branch and the zero-denominator sentinel branch is unreachable. -/
theorem ssim_denominator_claim {F : Type} [LinearOrderedField F] (gexp : F → F)
    (ref_y dist_y : List ℕ) (w h : ℕ) (h1 : ref_y.length = dist_y.length)
    (h2 : ref_y.length = w * h) :
    0 < ssimDenominator (F := F) ref_y dist_y (w * h) ∧
    ssim_y gexp ref_y dist_y w h =
      .ok (ssimNumerator ref_y dist_y (w * h) / ssimDenominator ref_y dist_y (w * h)) :=
  ⟨ssimDenominator_pos _ _ _,
    by rw [ssim_y_eq gexp _ _ _ _ h1 h2, ssimValue_eq_div]⟩

/-! ## Witnesses -/

theorem msssim_y_claim_witness :
    msssim_y (F := ℚ) (fun _ => 1) (fun _ _ => 1) (List.replicate 512 0)
      (List.replicate 512 0) 32 16 =
      .error (.invalidInput "Image too small for MS-SSIM calculation with 5 scales") :=
  (msssim_y_claim (fun _ => 1) (fun _ _ => 1) (List.replicate 512 0)
    (List.replicate 512 0) 32 16 rfl
    (by rw [List.length_replicate])).1 (by norm_num)

theorem psnr_y_claim_witness :
    psnr_y (F := ℝ) Real.sqrt (Real.logb 10) [100, 100, 100, 100] [150, 150, 150, 150]
      2 2 = .ok (20 * Real.logb 10 (255 / ((|(50 : ℤ)| : ℤ) : ℝ))) :=
  (psnr_y_claim [100, 100, 100, 100] [150, 150, 150, 150] 2 2 rfl rfl).2.2 50
    (by norm_num) (by norm_num) (by decide)

theorem downsample_2x2_claim_witness :
    downsample_2x2 [100, 100, 200, 200, 100, 100, 200, 200, 50, 50, 150, 150,
        50, 50, 150, 150] 4 4 =
      .ok (downsampleCore [100, 100, 200, 200, 100, 100, 200, 200, 50, 50, 150, 150,
        50, 50, 150, 150] 4 4, 4 / 2, 4 / 2) :=
  ((downsample_2x2_claim [100, 100, 200, 200, 100, 100, 200, 200, 50, 50, 150, 150,
    50, 50, 150, 150] 4 4).2.1 (by norm_num) (by norm_num) (by decide)).1

theorem apply_gaussian_filter_claim_witness :
    (apply_gaussian_filter (F := ℚ) [5] 1 1 [1]).length = 1 * 1 :=
  (apply_gaussian_filter_claim [5] 1 1 [1] (by decide) (by decide) (by decide)).1

theorem metric_self_claim_witness :
    ssim_y (F := ℚ) (fun _ => 1) (List.replicate 1024 0) (List.replicate 1024 0) 32 32 =
      .ok 1 ∧
    msssim_y (F := ℚ) (fun _ => 1) (fun _ _ => 1) (List.replicate 1024 0)
      (List.replicate 1024 0) 32 32 = .ok 1 :=
  ⟨(metric_self_claim (fun _ => 1) (fun _ _ => 1) (List.replicate 1024 0) 32 32
      (by rw [List.length_replicate])).1 (by norm_num) (by norm_num),
    (metric_self_claim (fun _ => 1) (fun _ _ => 1) (List.replicate 1024 0) 32 32
      (by rw [List.length_replicate])).2 (by norm_num) (by norm_num) (fun e => rfl)⟩

theorem gaussian_kernel_claim_witness :
    (generate_gaussian_kernel (F := ℝ) Real.exp 11 (3 / 2)).sum = 1 ∧
    (generate_gaussian_kernel (F := ℝ) Real.exp 11 (3 / 2)).getD 0 0 ≤
      (generate_gaussian_kernel (F := ℝ) Real.exp 11 (3 / 2)).getD 5 0 :=
  ⟨(gaussian_kernel_claim Real.exp 11 (3 / 2) (by norm_num) (by norm_num)
      (fun x => Real.exp_pos x) Real.exp_monotone).2.2.1,
    (gaussian_kernel_claim Real.exp 11 (3 / 2) (by norm_num) (by norm_num)
      (fun x => Real.exp_pos x) Real.exp_monotone).2.2.2.2.2 0 (by norm_num)⟩

theorem read_yuv420p_frame_claim_witness :
    read_yuv420p_frame [0, 1, 2, 3, 4, 5, 6, 7, 8, 9] 2 2 =
      .ok (⟨[0, 1, 2, 3, 4, 5, 6, 7, 8, 9].take (2 * 2),
          ([0, 1, 2, 3, 4, 5, 6, 7, 8, 9].drop (2 * 2)).take (2 / 2 * (2 / 2)),
          (([0, 1, 2, 3, 4, 5, 6, 7, 8, 9].drop (2 * 2)).drop (2 / 2 * (2 / 2))).take
            (2 / 2 * (2 / 2)),
          2, 2⟩,
        (([0, 1, 2, 3, 4, 5, 6, 7, 8, 9].drop (2 * 2)).drop (2 / 2 * (2 / 2))).drop
          (2 / 2 * (2 / 2))) :=
  (read_yuv420p_frame_claim [0, 1, 2, 3, 4, 5, 6, 7, 8, 9] 2 2 (by norm_num)
    (by norm_num)).1 (by decide)

theorem reflect_claim_amended_witness :
    filterIndicesInBounds 2 11 = false ∧ filterIndicesInBounds 6 11 = true :=
  ⟨(reflect_claim_amended (F := ℚ) (fun _ => 1) 1).1 2 (by norm_num) (by norm_num),
    (reflect_claim_amended (F := ℚ) (fun _ => 1) 1).2.1 6 (by norm_num)⟩

theorem ssim_denominator_claim_witness :
    0 < ssimDenominator (F := ℚ) [7] [9] (1 * 1) ∧
    ssim_y (F := ℚ) (fun _ => 1) [7] [9] 1 1 =
      .ok (ssimNumerator [7] [9] (1 * 1) / ssimDenominator [7] [9] (1 * 1)) :=
  ssim_denominator_claim (fun _ => 1) [7] [9] 1 1 rfl rfl

end rdmeter
